import Mathlib

/-!
# Verification of the crvusdsim state-logging and band-initialization subsystem

Shallow embedding of the repository's core:

* `SimAggregateStablePrice.prepare_for_run` (src/crvusdsim/pool/sim_interface/sim_aggregator.py)
* `_parse_arguments` (src/crvusdsim/sim/__init__.py)
* `StateLog` (src/crvusdsim/metrics/state_log/state_log.py)
* the band-initialization strategy exercised by src/test/sim_interface/test_bands_strategy.py
  (its implementation file is not part of the sources, so it is modelled from the spec).

Python floats are modelled as exact rationals (`ℚ`); the pool boundary works in
fixed-point integers scaled by 10^18 (spec section 6), modelled as `Int`; Python
`int(x)` is truncation toward zero (`Int.div`); Python exceptions are modelled with
`Except PyErr`.
-/

namespace CrvUsdSim

/-- A Python exception value, as far as the embedded code can raise one. -/
inductive PyErr where
  | typeError (msg : String)
  | keyError (key : String)
  | attributeError (attr : String)
  | valueError (msg : String)
  | indexError (msg : String)
  deriving Repr, DecidableEq

/-- The embedding of `int(x * 10**18)`: the float `x` is an exact rational, and
Python `int()` truncates toward zero (`Int.div` is T-division; `q.num / q.den` is in
lowest terms). -/
def toFixed (q : ℚ) : Int := Int.tdiv (q.num * 10 ^ 18) (q.den : Int)

/-- A time-indexed price table: each row is `(timestamp, price)`, mirroring a one-column
pandas DataFrame whose index entries expose a `timestamp()` accessor.  Values are exact
rationals standing for the Python floats. -/
structure PriceSeries where
  rows : List (Int × ℚ)
  deriving Repr, DecidableEq

/-- The list of prices (`prices.iloc[:, 0]`). -/
def PriceSeries.priceList (ps : PriceSeries) : List ℚ :=
  ps.rows.map (fun r => r.2)

/-- Executable maximum of two fixed-point prices. -/
def maxI (a b : Int) : Int := if a ≤ b then b else a

/-- Executable minimum of two fixed-point prices. -/
def minI (a b : Int) : Int := if a ≤ b then a else b

/-- Fold computing the maximum of `x :: xs`. -/
def maxIList (x : Int) (xs : List Int) : Int :=
  xs.foldl maxI x

/-- Fold computing the minimum of `x :: xs`. -/
def minIList (x : Int) (xs : List Int) : Int :=
  xs.foldl minI x

/-! ## SimAggregateStablePrice (src/crvusdsim/pool/sim_interface/sim_aggregator.py) -/

/-- The slice of aggregator state touched by the override: `last_price` and
`last_timestamp` (both integers in the source; `last_price` is 10^18-scaled). -/
structure AggregateStablePrice where
  last_price : Int
  last_timestamp : Int
  deriving Repr, DecidableEq

/-- Modelled from the spec: the parent-class `AggregateStablePrice.prepare_for_run`
is not among the sources; the spec describes `prepare_for_run` only through the
overriding subclass, so the parent preparation is modelled as leaving `last_price`
and `last_timestamp` untouched (the override then assigns them). -/
def AggregateStablePrice.prepare_for_run_super (agg : AggregateStablePrice)
    (_prices : PriceSeries) (_keep_price : Bool) : AggregateStablePrice :=
  agg

/-- `SimAggregateStablePrice.prepare_for_run`: calls the parent, then when
`keep_price` is false sets `last_price := int(prices.iloc[0, 0] * 10**18)`, and in
all cases sets `last_timestamp := int(prices.index[0].timestamp())`.  An empty
series makes `iloc[0]` raise, modelled as `none`. -/
def SimAggregateStablePrice.prepare_for_run (agg : AggregateStablePrice)
    (prices : PriceSeries) (keep_price : Bool) : Option AggregateStablePrice :=
  match prices.rows with
  | [] => none
  | (t0, p0) :: _ =>
    let agg1 := agg.prepare_for_run_super prices keep_price
    let agg2 :=
      if keep_price then agg1
      else { agg1 with last_price := toFixed p0 }
    some { agg2 with last_timestamp := t0 }

/-! ## _parse_arguments (src/crvusdsim/sim/__init__.py) -/

/-- A scalar Python value appearing inside an iterable sweep-parameter argument. -/
inductive ArgScalar where
  | int (n : Int)
  | float (q : ℚ)
  | str (s : String)
  deriving Repr, DecidableEq

/-- A Python value supplied as a sweep-parameter argument: a scalar, or a flat
iterable of scalars (the domain relevant to sweep parameters). -/
inductive ArgV where
  | int (n : Int)
  | float (q : ℚ)
  | str (s : String)
  | list (elems : List ArgScalar)
  deriving Repr, DecidableEq

/-- Python iteration: lists iterate over their elements, strings over their
characters (each a one-character string); ints and floats are not iterable. -/
def ArgV.iterate : ArgV → Option (List ArgScalar)
  | .list elems => some elems
  | .str s => some (s.toList.map (fun c => ArgScalar.str (String.mk [c])))
  | .int _ => none
  | .float _ => none

/-- `isinstance(v, int)`. -/
def ArgScalar.isInt : ArgScalar → Bool
  | .int _ => true
  | _ => false

/-- The band-placement strategy selected by `_parse_arguments`. -/
inductive BandsStrategy where
  | init_y_bands
  | user_loans
  | one_user_bands
  deriving Repr, DecidableEq

/-- The `input_args` list chosen for each `sim_mode` in `_parse_arguments`. -/
def input_args_of (sim_mode : String) : List String :=
  if sim_mode = "pool" then ["A", "fee", "admin_fee"]
  else if sim_mode = "controller" then ["loan_discount", "liquidation_discount"]
  else if sim_mode = "N" then ["N"]
  else []

/-- The `bands_strategy` chosen for each `sim_mode` in `_parse_arguments`. -/
def bands_strategy_of (sim_mode : String) : Option BandsStrategy :=
  if sim_mode = "pool" then some .init_y_bands
  else if sim_mode = "controller" then some .user_loans
  else if sim_mode = "N" then some .one_user_bands
  else none

/-- The `for key, val in kwargs.items()` loop of `_parse_arguments`: a key in
`input_args` is kept when `all(isinstance(v, int) for v in val)` holds; iterating a
non-iterable value raises `TypeError`, and an iterable containing a non-int triggers
the explicit `raise TypeError(...)`.  Other keys are skipped. -/
def parse_kwargs (input_args : List String) :
    List (String × ArgV) → Except PyErr (List (String × ArgV))
  | [] => .ok []
  | (key, val) :: rest =>
    if key ∈ input_args then
      match val.iterate with
      | none => .error (.typeError "object is not iterable")
      | some elems =>
        if elems.all ArgScalar.isInt then
          match parse_kwargs input_args rest with
          | .ok tail => .ok ((key, val) :: tail)
          | .error e => .error e
        else
          .error (.typeError ("Argument " ++ key ++ " must be an int or iterable of ints"))
    else
      parse_kwargs input_args rest

/-- `_parse_arguments(pool_metadata, sim_mode, **kwargs)`: selects `input_args` and
`bands_strategy` from `sim_mode`, then filters/validates the keyword arguments into
`variable_params`. -/
def parse_arguments (sim_mode : String) (kwargs : List (String × ArgV)) :
    Except PyErr (List (String × ArgV) × Option BandsStrategy) :=
  match parse_kwargs (input_args_of sim_mode) kwargs with
  | .ok variable_params => .ok (variable_params, bands_strategy_of sim_mode)
  | .error e => .error e

/-! ## Pool, controller and extractors

The LLAMMA pool object is an external collaborator (spec section 6); only the
fields of its read/write contract used by the core are modelled.  All prices and
fees are 10^18- (resp. 10^10-) scaled fixed-point integers per that contract;
band balances are exact amounts. -/

/-- The pool state visible through the interface of spec section 6: amplification,
fees, base oracle price, band bounds, per-band balances (band index to amount), and
the last oracle price. -/
structure Pool where
  A : Int
  fee : Int
  admin_fee : Int
  base_price : Int
  min_band : Int
  max_band : Int
  active_band : Int
  bands_x : List (Int × ℚ)
  bands_y : List (Int × ℚ)
  price_oracle_last : Int
  deriving DecidableEq

/-- The controller fields of the interface in spec section 6. -/
structure Controller where
  loan_discount : Int
  liquidation_discount : Int
  total_debt : Int
  deriving Repr, DecidableEq

/-- Modelled from the spec: `get_pool_state` (pool_state.py is not among the
sources).  Reads a pool's point-in-time state into a flat mapping: oracle price
sample and band indices (spec section 4.1). -/
def get_pool_state (pool : Pool) : List (String × Int) :=
  [("price_oracle", pool.price_oracle_last),
   ("active_band", pool.active_band),
   ("min_band", pool.min_band),
   ("max_band", pool.max_band)]

/-- Modelled from the spec: `get_controller_state` (controller_state.py is not among
the sources).  Reads controller loan/discount figures plus the pool oracle sample
into a flat mapping (spec section 4.1). -/
def get_controller_state (pool : Pool) (controller : Controller) : List (String × Int) :=
  [("loan_discount", controller.loan_discount),
   ("liquidation_discount", controller.liquidation_discount),
   ("total_debt", controller.total_debt),
   ("price_oracle", pool.price_oracle_last)]

/-- Modelled from the spec: `get_pool_parameters` (pool_parameters.py is not among
the sources).  Pool-mode run snapshot: A, fee, admin_fee (spec section 3). -/
def get_pool_parameters (pool : Pool) : List (String × Int) :=
  [("A", pool.A), ("fee", pool.fee), ("admin_fee", pool.admin_fee)]

/-- Modelled from the spec: `get_controller_parameters`.  Controller-mode run
snapshot: loan and liquidation discounts (spec section 3). -/
def get_controller_parameters (controller : Controller) : List (String × Int) :=
  [("loan_discount", controller.loan_discount),
   ("liquidation_discount", controller.liquidation_discount)]

/-- Modelled from the spec: `get_N_parameters`.  N-mode run snapshot, captured from
the `parameters` argument of the `StateLog` constructor (spec section 3). -/
def get_N_parameters (parameters : List (String × Int)) : List (String × Int) :=
  parameters

/-! ## StateLog (src/crvusdsim/metrics/state_log/state_log.py) -/

/-- A price sample carried in `update` keyword arguments: exposes a `timestamp`
attribute (spec section 6: index entries expose a timestamp-like accessor). -/
structure PriceSample where
  timestamp : Int
  price : ℚ
  deriving Repr, DecidableEq

/-- A Python value passed as an `update()` keyword argument: a plain number or a
price-sample object. -/
inductive PyV where
  | q (x : ℚ)
  | ps (sample : PriceSample)
  deriving Repr, DecidableEq

/-- One record of `state_per_trade`: the dict `{"state_data": ..., **kwargs}`. -/
structure StateRecord where
  state_data : List (String × Int)
  kwargs : List (String × PyV)
  deriving Repr, DecidableEq

/-- A reduced per-column table of `get_logs`: the `state_data` column expands a dict
per record into per-field columns; any other kwarg column keeps one scalar cell per
record (`none` marks a missing key, pandas NaN). Both are indexed by timestamps. -/
inductive Tbl where
  | fields (index : List Int) (cols : List (String × List (Option Int)))
  | cells (index : List Int) (vals : List (Option PyV))
  deriving Repr, DecidableEq

/-- The mapping returned by `get_logs`: the single-row `sim_parameters` table plus
one table per DataFrame column. -/
structure Logs where
  sim_parameters : List (String × Int)
  tables : List (String × Tbl)
  deriving Repr, DecidableEq

/-- A metric-output DataFrame: named columns of numbers. -/
def MTable := List (String × List ℚ)

/-- `pandas.concat(..., axis=1)`: side-by-side column concatenation. -/
def concatColumns (tables : List MTable) : MTable :=
  tables.flatten

/-- A metric object (spec section 6): a `compute` capability, and for
`PoolMetric`-like metrics a pool reference bound by `prepare_metrics`. -/
structure SimMetric where
  isPoolMetric : Bool
  boundPool : Option Pool
  compute : Logs → MTable × MTable

/-- `prepare_metrics`: binds the pool to every `PoolMetric`. -/
def prepare_metrics (metrics : List SimMetric) (pool : Pool) : List SimMetric :=
  metrics.map (fun m => if m.isPoolMetric then { m with boundPool := some pool } else m)

/-- The `StateLog` object.  `state_per_run` is `none` when `__init__` never assigned
the slot (unrecognized `sim_mode`); reading it then raises `AttributeError`. -/
structure StateLog where
  pool : Pool
  controller : Controller
  metrics : List SimMetric
  state_per_run : Option (List (String × Int))
  state_per_trade : List StateRecord
  sim_mode : String

/-- `StateLog.__init__(pool, controller, metrics, parameters, sim_mode)`. -/
def StateLog.init (pool : Pool) (controller : Controller) (metrics : List SimMetric)
    (parameters : List (String × Int)) (sim_mode : String) : StateLog :=
  { pool := pool
    controller := controller
    metrics := prepare_metrics metrics pool
    sim_mode := sim_mode
    state_per_trade := []
    state_per_run :=
      if sim_mode = "pool" then some (get_pool_parameters pool)
      else if sim_mode = "controller" then some (get_controller_parameters controller)
      else if sim_mode = "N" then some (get_N_parameters parameters)
      else none }

/-- `StateLog.update(**kwargs)`: an `if`/`elif` pair appending a pool or controller
record, followed by a separate `if` for mode `"N"` (also a controller record). -/
def StateLog.update (log : StateLog) (kwargs : List (String × PyV)) : StateLog :=
  let log1 :=
    if log.sim_mode = "pool" then
      { log with state_per_trade :=
          log.state_per_trade ++ [⟨get_pool_state log.pool, kwargs⟩] }
    else if log.sim_mode = "controller" then
      { log with state_per_trade :=
          log.state_per_trade ++ [⟨get_controller_state log.pool log.controller, kwargs⟩] }
    else log
  if log.sim_mode = "N" then
    { log1 with state_per_trade :=
        log1.state_per_trade ++ [⟨get_controller_state log1.pool log1.controller, kwargs⟩] }
  else log1

/-- Repeated `update` calls. -/
def StateLog.updateMany (log : StateLog) (kwargsList : List (List (String × PyV))) : StateLog :=
  kwargsList.foldl StateLog.update log

/-- The record appended by a single `update` call in a recognized mode. -/
def recordFor (log : StateLog) (kwargs : List (String × PyV)) : StateRecord :=
  if log.sim_mode = "pool" then ⟨get_pool_state log.pool, kwargs⟩
  else ⟨get_controller_state log.pool log.controller, kwargs⟩

/-- `state["price_sample"].timestamp` on one record: `KeyError` when the key is
missing, `AttributeError` when the value has no timestamp attribute. -/
def getTS (record : StateRecord) : Except PyErr Int :=
  match record.kwargs.lookup "price_sample" with
  | some (.ps sample) => .ok sample.timestamp
  | some (.q _) => .error (.attributeError "timestamp")
  | none => .error (.keyError "price_sample")

/-- The `times` list comprehension of `get_logs`. -/
def timesOf : List StateRecord → Except PyErr (List Int)
  | [] => .ok []
  | record :: rest =>
    match getTS record with
    | .error e => .error e
    | .ok t =>
      match timesOf rest with
      | .error e => .error e
      | .ok ts => .ok (t :: ts)

/-- Left-biased ordered union of key lists (pandas column order: first appearance). -/
def unionKeys (acc : List String) : List String → List String
  | [] => acc
  | k :: ks => unionKeys (if k ∈ acc then acc else acc ++ [k]) ks

/-- The keys seen across all records under a projection, in order of first
appearance. -/
def keysSeen (proj : StateRecord → List String) (records : List StateRecord) : List String :=
  records.foldl (fun acc r => unionKeys acc (proj r)) []

/-- Field names appearing in some record's `state_data`. -/
def fieldNamesOf (records : List StateRecord) : List String :=
  keysSeen (fun r => r.state_data.map Prod.fst) records

/-- Keyword-argument column names appearing in some record. -/
def kwargKeysOf (records : List StateRecord) : List String :=
  keysSeen (fun r => r.kwargs.map Prod.fst) records

/-- `DataFrame(df["state_data"].to_list(), index=times)`: one column per state
field, one row per record. -/
def stateDataTable (records : List StateRecord) (times : List Int) : Tbl :=
  .fields times
    ((fieldNamesOf records).map (fun f => (f, records.map (fun r => r.state_data.lookup f))))

/-- `StateLog.get_logs()`: evaluates the `times` comprehension, then builds the
returned dict; an unset `state_per_run` slot raises `AttributeError` there. -/
def StateLog.get_logs (log : StateLog) : Except PyErr Logs :=
  match timesOf log.state_per_trade with
  | .error e => .error e
  | .ok times =>
    match log.state_per_run with
    | none => .error (.attributeError "state_per_run")
    | some state_per_run =>
      let records := log.state_per_trade
      let tables : List (String × Tbl) :=
        match records with
        | [] => []
        | _ :: _ =>
          ("state_data", stateDataTable records times) ::
            (kwargKeysOf records).map
              (fun c => (c, Tbl.cells times (records.map (fun r => r.kwargs.lookup c))))
      .ok { sim_parameters := state_per_run, tables := tables }

/-- `StateLog.compute_metrics()`: reduces the logs, runs every metric, transposes
(`ValueError` on an empty metric list), concatenates, and returns the 4-tuple; the
final `state_logs["state_data"]` lookup raises `KeyError` when absent. -/
def StateLog.compute_metrics (log : StateLog) :
    Except PyErr (List (String × Int) × MTable × MTable × Tbl) :=
  match log.get_logs with
  | .error e => .error e
  | .ok state_logs =>
    let metric_data := log.metrics.map (fun m => m.compute state_logs)
    match metric_data with
    | [] => .error (.valueError "not enough values to unpack")
    | _ :: _ =>
      let data_per_trade := metric_data.map Prod.fst
      let summary_data := metric_data.map Prod.snd
      match state_logs.tables.lookup "state_data" with
      | none => .error (.keyError "state_data")
      | some state_data =>
        .ok (state_logs.sim_parameters,
             concatColumns data_per_trade,
             concatColumns summary_data,
             state_data)

/-! ## Band-initialization strategy

The implementation file (crvusdsim/pool_data/metadata/bands_strategy.py) is not
among the sources; only its tests are (src/test/sim_interface/test_bands_strategy.py).
The strategy and the band-pricing queries are therefore modelled from the spec
(sections 4.2, 6, 8): band prices follow the LLAMMA convention
`p_oracle_down(n) = p_oracle_up(n + 1)` with ratio `(A - 1) / A` per band in
10^18-scaled fixed point, the seeded range must bracket the price path, the initial
oracle price is recomputed from the first price sample, and the active band is
where the bonding curve is currently priced. -/

/-- One band step down in price: multiply by `(A - 1) / A` in fixed point. -/
def stepDown (A p : Int) : Int := p * (A - 1) / A

/-- One band step up in price: multiply by `A / (A - 1)` in fixed point. -/
def stepUp (A p : Int) : Int := p * A / (A - 1)

/-- Iterated application. -/
def iterateN (f : Int → Int) : Nat → Int → Int
  | 0, p => p
  | k + 1, p => iterateN f k (f p)

/-- Modelled from the spec: `p_oracle_up(band)` — the upper oracle price of a band;
consecutive bands are spaced by the factor `(A - 1) / A` (LLAMMA convention),
anchored at `base_price` for band 0, in 10^18-scaled fixed point. -/
def p_oracle_up (pool : Pool) (n : Int) : Int :=
  if 0 ≤ n then iterateN (stepDown pool.A) n.toNat pool.base_price
  else iterateN (stepUp pool.A) (-n).toNat pool.base_price

/-- Modelled from the spec: `p_oracle_down(band) = p_oracle_up(band + 1)`. -/
def p_oracle_down (pool : Pool) (n : Int) : Int :=
  p_oracle_up pool (n + 1)

/-- Fuel-bounded upward scan from `n`: the last band (from `n` on) whose upper price
still reaches `target`; `none` when the fuel runs out first. -/
def lastBandGE (up : Int → Int) (target : Int) : Nat → Int → Option Int
  | 0, _ => none
  | fuel + 1, n => if target ≤ up (n + 1) then lastBandGE up target fuel (n + 1) else some n

/-- Fuel-bounded downward scan from `n`: the first band at or below `n` whose upper
price reaches `target`. -/
def firstBandGE (up : Int → Int) (target : Int) : Nat → Int → Option Int
  | 0, _ => none
  | fuel + 1, n => if target ≤ up n then some n else firstBandGE up target fuel (n - 1)

/-- The minimum band chosen so that `p_oracle_up(min_band)` reaches the price-path
maximum: the largest band index whose upper price still covers `pmax` (scanning up
from band 0 when band 0 already covers it, down otherwise). -/
def findMinBand (up : Int → Int) (pmax : Int) (fuel : Nat) : Option Int :=
  if pmax ≤ up 0 then lastBandGE up pmax fuel 0
  else firstBandGE up pmax fuel (-1)

/-- Fuel-bounded upward scan from `n`: the first band whose lower price has dropped
to `target`. -/
def firstBandLE (down : Int → Int) (target : Int) : Nat → Int → Option Int
  | 0, _ => none
  | fuel + 1, n => if down n ≤ target then some n else firstBandLE down target fuel (n + 1)

/-- Search fuel: ample for any realistic band count. -/
def bandFuel : Nat := 4096

/-- Consecutive band table `[(mn, f mn), (mn+1, f (mn+1)), ...]` of a given size. -/
def bandTable (f : Int → ℚ) : Int → Nat → List (Int × ℚ)
  | _, 0 => []
  | mn, count + 1 => (mn, f mn) :: bandTable f (mn + 1) count

/-- A band balance read through the mapping interface (missing band: 0). -/
def bandBalance (bands : List (Int × ℚ)) (n : Int) : ℚ :=
  (bands.lookup n).getD 0

/-- Modelled from the spec: `init_y_bands_strategy(pool, prices, total_y)`
(spec section 4.2).  Rejects degenerate input (empty series, zero price spread,
non-positive deposit) before touching the pool; converts the float prices to
10^18 fixed point at the pool boundary; chooses `min_band` so its upper price
covers the series maximum; recomputes the initial oracle price from the first
sample and places `active_band` at the first band whose lower price has dropped to
it; chooses `max_band` past `active_band` so its lower price is at or below the
series minimum; distributes the deposit evenly across the seeded bands, bands
above the active one fully converted to X, the active band and below holding Y. -/
def init_y_bands_strategy (pool : Pool) (prices : PriceSeries) (total_y : Int) :
    Option Pool :=
  match prices.rows with
  | [] => none
  | (_, p0) :: rest =>
    let fixedRest := rest.map (fun r => toFixed r.2)
    let p0F := toFixed p0
    let pmaxF := maxIList p0F fixedRest
    let pminF := minIList p0F fixedRest
    if pminF < pmaxF ∧ 0 < total_y then
      match findMinBand (p_oracle_up pool) pmaxF bandFuel with
      | none => none
      | some mn =>
        match firstBandLE (p_oracle_down pool) p0F bandFuel mn with
        | none => none
        | some act =>
          match firstBandLE (p_oracle_down pool) pminF bandFuel act with
          | none => none
          | some mx =>
            let count : Nat := (mx - mn + 1).toNat
            let share : ℚ := (total_y : ℚ) / (count : ℚ)
            some { pool with
              min_band := mn
              max_band := mx
              active_band := act
              price_oracle_last := p0F
              bands_x := bandTable (fun n => if n < act then share else 0) mn count
              bands_y := bandTable (fun n => if act ≤ n then share else 0) mn count }
    else none

/-- Modelled from the spec: `pool.prepare_for_run(prices)` — final pre-run
preparation setting the pool's oracle state from the first price sample (converted
to fixed point at the boundary), leaving band indices and balances as seeded (spec
sections 4.2 and 6); `iloc[0]` on an empty series raises. -/
def Pool.prepare_for_run (pool : Pool) (prices : PriceSeries) : Option Pool :=
  match prices.rows with
  | [] => none
  | (_, p0) :: _ => some { pool with price_oracle_last := toFixed p0 }

/-! ## Concrete run configurations used as evaluation inputs -/

/-- A pool in its delivered state (A = 100, 0.6% fee). -/
def pool0 : Pool :=
  { A := 100, fee := 6 * 10 ^ 15, admin_fee := 0, base_price := 10 ^ 18
    min_band := 0, max_band := 0, active_band := 0
    bands_x := [], bands_y := [], price_oracle_last := 10 ^ 18 }

/-- A small pool for band seeding: A = 2, base price 16 with 10^18 scaling, so the
band grid is 16, 8, 4, 2, 1 (times 10^18). -/
def poolB : Pool :=
  { A := 2, fee := 0, admin_fee := 0, base_price := 16 * 10 ^ 18
    min_band := 0, max_band := 0, active_band := 0
    bands_x := [], bands_y := [], price_oracle_last := 0 }

/-- A controller in its delivered state. -/
def ctrl0 : Controller :=
  { loan_discount := 9 * 10 ^ 16, liquidation_discount := 6 * 10 ^ 16, total_debt := 0 }

/-- A plain (non-pool-bound) metric with constant output. -/
def metric0 : SimMetric :=
  { isPoolMetric := false, boundPool := none
    compute := fun _ => ([("metric", [1])], [("summary", [2])]) }

/-- One recorded observation carrying a price sample. -/
def rec0 : StateRecord :=
  { state_data := [("price_oracle", 10 ^ 18)]
    kwargs := [("price_sample", .ps ⟨5, 1⟩)] }

/-- A finalized log. -/
def logA : StateLog :=
  { pool := pool0, controller := ctrl0, metrics := [metric0]
    state_per_run := some [("A", 100)], state_per_trade := [rec0], sim_mode := "pool" }

/-- A controller with outstanding debt. -/
def ctrl5 : Controller := { ctrl0 with total_debt := 5 }

/-- The same accumulated records as `logA` but a different pool, controller and
mode. -/
def logB : StateLog :=
  { logA with pool := poolB, controller := ctrl5, sim_mode := "controller" }

/-- A log whose `sim_mode` is not one of the three recognized modes, so that
`__init__` left `state_per_run` unassigned. -/
def logBogus : StateLog :=
  { pool := pool0, controller := ctrl0, metrics := []
    state_per_run := none, state_per_trade := [], sim_mode := "legacy" }

/-- A price path whose first price (3) is interior: the maximum 16 comes later. -/
def pricesC3 : PriceSeries := ⟨[(100, 3), (101, 16), (102, 3)]⟩

/-- A price path starting at its maximum. -/
def pricesTop : PriceSeries := ⟨[(100, 16), (101, 3)]⟩

/-- A one-row price series for the aggregator. -/
def pricesAgg : PriceSeries := ⟨[(1700000000, 2)]⟩

/-- An aggregator with a stale price. -/
def aggW : AggregateStablePrice := { last_price := 7, last_timestamp := 0 }

/-- Two update calls' keyword arguments, each carrying a price sample. -/
def kwsW : List (List (String × PyV)) :=
  [[("price_sample", PyV.ps ⟨5, 1⟩)], [("price_sample", PyV.ps ⟨9, 2⟩)]]

/-- The price samples carried by `kwsW`. -/
def samplesW : List PriceSample := [⟨5, 1⟩, ⟨9, 2⟩]

/-! # Theorems -/

/-! ## Helper lemmas -/

theorem parse_kwargs_nil_args (kwargs : List (String × ArgV)) :
    parse_kwargs [] kwargs = .ok [] := by
  induction kwargs with
  | nil => rfl
  | cons kv rest ih =>
    obtain ⟨key, val⟩ := kv
    simp [parse_kwargs, ih]

/-! ## C2: unrecognized sim_mode at argument-parsing time -/

/-- C2, counterexample: for the unrecognized `sim_mode` value `"history"` (with a
sweep parameter supplied), `_parse_arguments` does not report an error; it returns
normally with empty `variable_params` and no bands strategy. -/
theorem c2_counterexample :
    parse_arguments "history" [("A", ArgV.int 50)] = .ok ([], none) := rfl

/-- C2, amended: an unrecognized `sim_mode` is not surfaced at sweep-parameter
parsing time — `_parse_arguments` returns normally with empty `variable_params` and
no bands strategy for every keyword-argument list; for a recognized `sim_mode`,
`StateLog` construction always succeeds and sets `state_per_run`. -/
theorem c2_amended (mode : String) (kwargs : List (String × ArgV)) (pool : Pool)
    (controller : Controller) (metrics : List SimMetric) (params : List (String × Int)) :
    (mode ≠ "pool" → mode ≠ "controller" → mode ≠ "N" →
      parse_arguments mode kwargs = .ok ([], none)) ∧
    (mode = "pool" ∨ mode = "controller" ∨ mode = "N" →
      (StateLog.init pool controller metrics params mode).state_per_run.isSome = true) := by
  constructor
  · intro h1 h2 h3
    have hi : input_args_of mode = [] := by simp [input_args_of, h1, h2, h3]
    have hb : bands_strategy_of mode = none := by simp [bands_strategy_of, h1, h2, h3]
    simp [parse_arguments, hi, hb, parse_kwargs_nil_args]
  · rintro (h | h | h) <;> subst h <;> rfl

/-- C2, witness for the amended theorem at concrete inputs. -/
theorem c2_witness :
    parse_arguments "history" [("fee", ArgV.list [ArgScalar.int 4])] = .ok ([], none) ∧
    (StateLog.init pool0 ctrl0 [] [] "N").state_per_run.isSome = true :=
  ⟨(c2_amended "history" [("fee", ArgV.list [ArgScalar.int 4])] pool0 ctrl0 [] []).1
      (by decide) (by decide) (by decide),
   (c2_amended "N" [] pool0 ctrl0 [] []).2 (Or.inr (Or.inr rfl))⟩

/-! ## C8: sweep-parameter type validation -/

/-- C8: evaluating `_parse_arguments` at the failing input — a recognized sweep key
(`A` for mode `"pool"`) with a plain integer value, which the documentation says is
accepted — raises `TypeError` from iterating the integer instead of accepting it. -/
theorem c8_plain_int_rejected :
    parse_arguments "pool" [("A", ArgV.int 50)] =
      .error (.typeError "object is not iterable") := rfl

/-! ## C9: SimAggregateStablePrice.prepare_for_run -/

/-- C9: on a non-empty price series, `prepare_for_run` always sets `last_timestamp`
to the first index entry's timestamp, sets `last_price` to
`int(first price * 10^18)` exactly when `keep_price` is false, and leaves
`last_price` unchanged when `keep_price` is true. -/
theorem c9_prepare_for_run (agg : AggregateStablePrice) (prices : PriceSeries)
    (keep_price : Bool) (t0 : Int) (p0 : ℚ) (rest : List (Int × ℚ))
    (h : prices.rows = (t0, p0) :: rest) :
    ∃ agg2, SimAggregateStablePrice.prepare_for_run agg prices keep_price = some agg2 ∧
      agg2.last_timestamp = t0 ∧
      (keep_price = false → agg2.last_price = toFixed p0) ∧
      (keep_price = true → agg2.last_price = agg.last_price) := by
  cases keep_price <;>
    simp [SimAggregateStablePrice.prepare_for_run, h,
      AggregateStablePrice.prepare_for_run_super]

/-- C9, witness: with a one-row series at price 2 and `keep_price = false`, the
aggregator gets `last_timestamp = 1700000000` and `last_price = 2 * 10^18`. -/
theorem c9_witness :
    (∃ agg2, SimAggregateStablePrice.prepare_for_run aggW pricesAgg false = some agg2 ∧
      agg2.last_timestamp = 1700000000 ∧
      (false = false → agg2.last_price = toFixed 2) ∧
      (false = true → agg2.last_price = aggW.last_price)) ∧
    toFixed 2 = 2 * 10 ^ 18 :=
  ⟨c9_prepare_for_run aggW pricesAgg false 1700000000 2 [] rfl, by decide⟩

/-! ## C10: update with an unrecognized sim_mode -/

/-- C10: for a `StateLog` whose `sim_mode` is outside the three recognized modes,
`update` raises no error and appends no record — the log is unchanged. -/
theorem c10_update_unrecognized (log : StateLog) (kwargs : List (String × PyV))
    (h1 : log.sim_mode ≠ "pool") (h2 : log.sim_mode ≠ "controller")
    (h3 : log.sim_mode ≠ "N") : log.update kwargs = log := by
  simp [StateLog.update, h1, h2, h3]

/-- C10, witness at a concrete log with `sim_mode = "legacy"`. -/
theorem c10_witness : StateLog.update logBogus [("volume", PyV.q 3)] = logBogus :=
  c10_update_unrecognized logBogus [("volume", PyV.q 3)]
    (by decide) (by decide) (by decide)

/-! ## C1: get_logs on an empty run -/

/-- C1, counterexample: a `StateLog` constructed in the recognized mode `"pool"`
with zero `update()` calls; `get_logs()` raises nothing — it returns normally with
only the `sim_parameters` table and no per-field tables. -/
theorem c1_counterexample :
    StateLog.get_logs (StateLog.init pool0 ctrl0 [] [] "pool") =
      .ok { sim_parameters := [("A", 100), ("fee", 6 * 10 ^ 15), ("admin_fee", 0)],
            tables := [] } := rfl

/-- C1, amended: for every recognized `sim_mode`, calling `get_logs()` after zero
`update()` calls does not raise; it returns a mapping holding only the
`sim_parameters` table, with no per-field tables at all. -/
theorem c1_amended (pool : Pool) (controller : Controller) (metrics : List SimMetric)
    (params : List (String × Int)) (mode : String)
    (hmode : mode = "pool" ∨ mode = "controller" ∨ mode = "N") :
    ∃ spr, (StateLog.init pool controller metrics params mode).state_per_run = some spr ∧
      (StateLog.init pool controller metrics params mode).get_logs =
        .ok { sim_parameters := spr, tables := [] } := by
  rcases hmode with h | h | h <;> subst h <;> exact ⟨_, rfl, rfl⟩

/-- C1, witness for the amended theorem in controller mode. -/
theorem c1_witness :
    ∃ spr, (StateLog.init pool0 ctrl0 [] [] "controller").state_per_run = some spr ∧
      (StateLog.init pool0 ctrl0 [] [] "controller").get_logs =
        .ok { sim_parameters := spr, tables := [] } :=
  c1_amended pool0 ctrl0 [] [] "controller" (Or.inr (Or.inl rfl))

/-! ## C7: get_logs / compute_metrics are pure functions of the records -/

/-- C7: `get_logs` and `compute_metrics` are pure functions of the accumulated
record sequence (together with the run snapshot and the bound metrics): two logs
agreeing on those — whatever their pool, controller or mode references — reduce to
identical output tables, so repeated calls on the same finalized log are
identical. -/
theorem c7_pure (l1 l2 : StateLog) (h1 : l1.metrics = l2.metrics)
    (h2 : l1.state_per_run = l2.state_per_run)
    (h3 : l1.state_per_trade = l2.state_per_trade) :
    l1.get_logs = l2.get_logs ∧ l1.compute_metrics = l2.compute_metrics := by
  cases l1
  cases l2
  dsimp at h1 h2 h3
  subst h1
  subst h2
  subst h3
  exact ⟨rfl, rfl⟩

/-- C7, witness: two finalized logs sharing records, snapshot and metrics but
differing in pool, controller and mode have identical outputs. -/
theorem c7_witness :
    logA.get_logs = logB.get_logs ∧ logA.compute_metrics = logB.compute_metrics :=
  c7_pure logA logB rfl rfl rfl

/-! ## C6: record count and time index of get_logs -/

theorem recordFor_kwargs (log : StateLog) (kw : List (String × PyV)) :
    (recordFor log kw).kwargs = kw := by
  unfold recordFor
  split <;> rfl

theorem recordFor_update_spt (log : StateLog) (x : List StateRecord)
    (kw : List (String × PyV)) :
    recordFor { log with state_per_trade := x } kw = recordFor log kw := rfl

theorem update_recognized (log : StateLog) (kw : List (String × PyV))
    (h : log.sim_mode = "pool" ∨ log.sim_mode = "controller" ∨ log.sim_mode = "N") :
    log.update kw =
      { log with state_per_trade := log.state_per_trade ++ [recordFor log kw] } := by
  rcases h with h | h | h <;> simp [StateLog.update, recordFor, h]

theorem updateMany_recognized (kws : List (List (String × PyV))) (log : StateLog)
    (h : log.sim_mode = "pool" ∨ log.sim_mode = "controller" ∨ log.sim_mode = "N") :
    log.updateMany kws =
      { log with state_per_trade := log.state_per_trade ++ kws.map (recordFor log) } := by
  induction kws generalizing log with
  | nil =>
    simp [StateLog.updateMany]
  | cons kw kws ih =>
    have step : log.updateMany (kw :: kws) = (log.update kw).updateMany kws := rfl
    rw [step, update_recognized log kw h,
      ih { log with state_per_trade := log.state_per_trade ++ [recordFor log kw] } h]
    simp [recordFor_update_spt]

theorem timesOf_map (log : StateLog) (kws : List (List (String × PyV)))
    (samples : List PriceSample)
    (hps : List.Forall₂ (fun kw s => kw.lookup "price_sample" = some (PyV.ps s)) kws samples) :
    timesOf (kws.map (recordFor log)) = .ok (samples.map PriceSample.timestamp) := by
  induction hps with
  | nil => rfl
  | cons hkw _hrest ih =>
    simp only [List.map_cons, timesOf, getTS, recordFor_kwargs, hkw, ih]

theorem mem_unionKeys_left (a : String) (acc ks : List String) (h : a ∈ acc) :
    a ∈ unionKeys acc ks := by
  induction ks generalizing acc with
  | nil => exact h
  | cons k ks ih =>
    simp only [unionKeys]
    apply ih
    split
    · exact h
    · exact List.mem_append_left _ h

theorem mem_unionKeys_arg (a : String) (acc ks : List String) (h : a ∈ ks) :
    a ∈ unionKeys acc ks := by
  induction ks generalizing acc with
  | nil => cases h
  | cons k ks ih =>
    simp only [unionKeys]
    rcases List.mem_cons.mp h with rfl | h'
    · apply mem_unionKeys_left
      split
      · assumption
      · exact List.mem_append_right _ (List.mem_singleton.mpr rfl)
    · exact ih _ h'

theorem mem_foldl_unionKeys_acc (proj : StateRecord → List String)
    (records : List StateRecord) (acc : List String) (a : String) (h : a ∈ acc) :
    a ∈ records.foldl (fun acc r => unionKeys acc (proj r)) acc := by
  induction records generalizing acc with
  | nil => exact h
  | cons r rs ih => exact ih _ (mem_unionKeys_left _ _ _ h)

theorem mem_foldl_unionKeys (proj : StateRecord → List String)
    (records : List StateRecord) (acc : List String) (a : String) (r : StateRecord)
    (hr : r ∈ records) (ha : a ∈ proj r) :
    a ∈ records.foldl (fun acc r => unionKeys acc (proj r)) acc := by
  induction records generalizing acc with
  | nil => cases hr
  | cons r' rs ih =>
    simp only [List.foldl_cons]
    rcases List.mem_cons.mp hr with rfl | hr'
    · exact mem_foldl_unionKeys_acc proj rs (unionKeys acc (proj r)) a
        (mem_unionKeys_arg a acc (proj r) ha)
    · exact ih (unionKeys acc (proj r')) hr'

theorem mem_fieldNamesOf (records : List StateRecord) (r : StateRecord)
    (hr : r ∈ records) (f : String) (hf : f ∈ r.state_data.map Prod.fst) :
    f ∈ fieldNamesOf records :=
  mem_foldl_unionKeys _ records [] f r hr hf

theorem get_logs_ok (log : StateLog) (spr : List (String × Int)) (times : List Int)
    (hrun : log.state_per_run = some spr)
    (htimes : timesOf log.state_per_trade = .ok times) :
    log.get_logs = .ok
      { sim_parameters := spr
        tables :=
          match log.state_per_trade with
          | [] => []
          | _ :: _ =>
            ("state_data", stateDataTable log.state_per_trade times) ::
              (kwargKeysOf log.state_per_trade).map
                (fun c => (c, Tbl.cells times
                  (log.state_per_trade.map (fun r => r.kwargs.lookup c)))) } := by
  unfold StateLog.get_logs
  rw [htimes, hrun]

/-- C6: for every `StateLog` constructed with a recognized `sim_mode`, after N ≥ 1
`update()` calls each carrying a timestamp-bearing price sample, `get_logs()`
succeeds and its `state_data` table is indexed by exactly the N carried timestamps,
every one of its per-field series has length exactly N, and every state-field name
seen in any record's `state_data` appears among its columns. -/
theorem c6_record_count (pool : Pool) (controller : Controller)
    (metrics : List SimMetric) (params : List (String × Int)) (mode : String)
    (kws : List (List (String × PyV))) (samples : List PriceSample)
    (hmode : mode = "pool" ∨ mode = "controller" ∨ mode = "N")
    (hne : kws ≠ [])
    (hps : List.Forall₂ (fun kw s => kw.lookup "price_sample" = some (PyV.ps s)) kws samples) :
    ∃ logs : Logs,
      ((StateLog.init pool controller metrics params mode).updateMany kws).get_logs =
        .ok logs ∧
      ∃ cols,
        logs.tables.lookup "state_data" =
          some (Tbl.fields (samples.map PriceSample.timestamp) cols) ∧
        (∀ c ∈ cols, (c.2 : List (Option Int)).length = kws.length) ∧
        (∀ f : String,
          (∃ r ∈ ((StateLog.init pool controller metrics params mode).updateMany kws).state_per_trade,
            f ∈ r.state_data.map Prod.fst) →
          f ∈ cols.map Prod.fst) := by
  have hrec : (StateLog.init pool controller metrics params mode).sim_mode = "pool" ∨
      (StateLog.init pool controller metrics params mode).sim_mode = "controller" ∨
      (StateLog.init pool controller metrics params mode).sim_mode = "N" := hmode
  have hUM := updateMany_recognized kws (StateLog.init pool controller metrics params mode) hrec
  have hspt : ((StateLog.init pool controller metrics params mode).updateMany kws).state_per_trade =
      kws.map (recordFor (StateLog.init pool controller metrics params mode)) := by
    rw [hUM]; simp [StateLog.init]
  obtain ⟨spr, hspr⟩ :
      ∃ spr, (StateLog.init pool controller metrics params mode).state_per_run = some spr := by
    rcases hmode with h | h | h <;> subst h <;> exact ⟨_, rfl⟩
  have hrun : ((StateLog.init pool controller metrics params mode).updateMany kws).state_per_run =
      some spr := by rw [hUM]; exact hspr
  have htimes : timesOf ((StateLog.init pool controller metrics params mode).updateMany kws).state_per_trade =
      .ok (samples.map PriceSample.timestamp) := by
    rw [hspt]; exact timesOf_map _ kws samples hps
  have hlogs := get_logs_ok _ spr (samples.map PriceSample.timestamp) hrun htimes
  obtain ⟨kw0, kwsTail, rfl⟩ : ∃ kw0 kwsTail, kws = kw0 :: kwsTail := by
    cases kws with
    | nil => exact absurd rfl hne
    | cons kw0 kwsTail => exact ⟨kw0, kwsTail, rfl⟩
  refine ⟨_, hlogs, ?_⟩
  rw [hspt]
  refine ⟨(fieldNamesOf ((kw0 :: kwsTail).map
      (recordFor (StateLog.init pool controller metrics params mode)))).map
    (fun f => (f, ((kw0 :: kwsTail).map
      (recordFor (StateLog.init pool controller metrics params mode))).map
        (fun r => r.state_data.lookup f))), ?_, ?_, ?_⟩
  · simp [stateDataTable, List.lookup]
  · intro c hc
    obtain ⟨f, _, rfl⟩ := List.mem_map.mp hc
    simp
  · intro f hf
    obtain ⟨r, hr, hfr⟩ := hf
    have hmem : f ∈ fieldNamesOf ((kw0 :: kwsTail).map
        (recordFor (StateLog.init pool controller metrics params mode))) :=
      mem_fieldNamesOf _ r hr f hfr
    simpa using hmem

/-- C6, witness: two updates in pool mode yield a `state_data` table indexed by the
two carried timestamps, with every series of length two. -/
theorem c6_witness :
    ∃ logs : Logs,
      ((StateLog.init pool0 ctrl0 [] [] "pool").updateMany kwsW).get_logs = .ok logs ∧
      ∃ cols,
        logs.tables.lookup "state_data" =
          some (Tbl.fields (samplesW.map PriceSample.timestamp) cols) ∧
        (∀ c ∈ cols, (c.2 : List (Option Int)).length = kwsW.length) ∧
        (∀ f : String,
          (∃ r ∈ ((StateLog.init pool0 ctrl0 [] [] "pool").updateMany kwsW).state_per_trade,
            f ∈ r.state_data.map Prod.fst) →
          f ∈ cols.map Prod.fst) :=
  c6_record_count pool0 ctrl0 [] [] "pool" kwsW samplesW (Or.inl rfl)
    (by simp [kwsW])
    (List.Forall₂.cons rfl (List.Forall₂.cons rfl List.Forall₂.nil))

/-! ## Order facts about the fixed-point max/min folds -/

theorem le_maxI_left (a b : Int) : a ≤ maxI a b := by
  unfold maxI
  split
  · assumption
  · exact le_refl a

theorem le_maxI_right (a b : Int) : b ≤ maxI a b := by
  unfold maxI
  split
  · exact le_refl b
  · exact le_of_lt (not_le.mp (by assumption))

theorem minI_le_left (a b : Int) : minI a b ≤ a := by
  unfold minI
  split
  · exact le_refl a
  · exact le_of_lt (not_le.mp (by assumption))

theorem minI_le_right (a b : Int) : minI a b ≤ b := by
  unfold minI
  split
  · assumption
  · exact le_refl b

theorem le_foldl_maxI (xs : List Int) (x : Int) : x ≤ xs.foldl maxI x := by
  induction xs generalizing x with
  | nil => exact le_refl x
  | cons y ys ih => exact le_trans (le_maxI_left x y) (ih (maxI x y))

theorem mem_le_foldl_maxI (xs : List Int) (a x : Int) (ha : a ∈ xs) :
    a ≤ xs.foldl maxI x := by
  induction xs generalizing x with
  | nil => cases ha
  | cons y ys ih =>
    rcases List.mem_cons.mp ha with rfl | h
    · exact le_trans (le_maxI_right x a) (le_foldl_maxI ys (maxI x a))
    · exact ih (maxI x y) h

theorem le_maxIList (x : Int) (xs : List Int) (a : Int) (ha : a ∈ x :: xs) :
    a ≤ maxIList x xs := by
  rcases List.mem_cons.mp ha with rfl | h
  · exact le_foldl_maxI xs a
  · exact mem_le_foldl_maxI xs a x h

theorem foldl_minI_le (xs : List Int) (x : Int) : xs.foldl minI x ≤ x := by
  induction xs generalizing x with
  | nil => exact le_refl x
  | cons y ys ih => exact le_trans (ih (minI x y)) (minI_le_left x y)

theorem foldl_minI_le_mem (xs : List Int) (a x : Int) (ha : a ∈ xs) :
    xs.foldl minI x ≤ a := by
  induction xs generalizing x with
  | nil => cases ha
  | cons y ys ih =>
    rcases List.mem_cons.mp ha with rfl | h
    · exact le_trans (foldl_minI_le ys (minI x a)) (minI_le_right x a)
    · exact ih (minI x y) h

theorem minIList_le (x : Int) (xs : List Int) (a : Int) (ha : a ∈ x :: xs) :
    minIList x xs ≤ a := by
  rcases List.mem_cons.mp ha with rfl | h
  · exact foldl_minI_le xs a
  · exact foldl_minI_le_mem xs a x h

/-! ## Specifications of the band searches -/

theorem lastBandGE_spec (up : Int → Int) (target : Int) :
    ∀ (fuel : Nat) (n m : Int), target ≤ up n → lastBandGE up target fuel n = some m →
      target ≤ up m ∧ up (m + 1) < target := by
  intro fuel
  induction fuel with
  | zero => intro n m _ hsearch; exact absurd hsearch (by simp [lastBandGE])
  | succ fuel ih =>
    intro n m h hsearch
    by_cases hc : target ≤ up (n + 1)
    · rw [lastBandGE, if_pos hc] at hsearch
      exact ih (n + 1) m hc hsearch
    · rw [lastBandGE, if_neg hc] at hsearch
      obtain rfl : n = m := by injection hsearch
      exact ⟨h, not_le.mp hc⟩

theorem firstBandGE_spec (up : Int → Int) (target : Int) :
    ∀ (fuel : Nat) (n m : Int), up (n + 1) < target → firstBandGE up target fuel n = some m →
      target ≤ up m ∧ up (m + 1) < target := by
  intro fuel
  induction fuel with
  | zero => intro n m _ hsearch; exact absurd hsearch (by simp [firstBandGE])
  | succ fuel ih =>
    intro n m h hsearch
    by_cases hc : target ≤ up n
    · rw [firstBandGE, if_pos hc] at hsearch
      obtain rfl : n = m := by injection hsearch
      exact ⟨hc, h⟩
    · rw [firstBandGE, if_neg hc] at hsearch
      have hpre : up (n - 1 + 1) < target := by
        rw [Int.sub_add_cancel]
        exact not_le.mp hc
      exact ih (n - 1) m hpre hsearch

theorem findMinBand_spec (up : Int → Int) (target : Int) (fuel : Nat) (mn : Int)
    (h : findMinBand up target fuel = some mn) :
    target ≤ up mn ∧ up (mn + 1) < target := by
  unfold findMinBand at h
  by_cases hc : target ≤ up 0
  · rw [if_pos hc] at h
    exact lastBandGE_spec up target fuel 0 mn hc h
  · rw [if_neg hc] at h
    have hpre : up (-1 + 1) < target := by
      norm_num
      exact not_le.mp hc
    exact firstBandGE_spec up target fuel (-1) mn hpre h

theorem firstBandLE_spec (down : Int → Int) (target : Int) :
    ∀ (fuel : Nat) (n m : Int), firstBandLE down target fuel n = some m →
      down m ≤ target ∧ n ≤ m ∧ ∀ k, n ≤ k → k < m → target < down k := by
  intro fuel
  induction fuel with
  | zero => intro n m hsearch; exact absurd hsearch (by simp [firstBandLE])
  | succ fuel ih =>
    intro n m hsearch
    by_cases hc : down n ≤ target
    · rw [firstBandLE, if_pos hc] at hsearch
      obtain rfl : n = m := by injection hsearch
      exact ⟨hc, le_refl n, fun k h1 h2 => absurd h2 (not_lt.mpr h1)⟩
    · rw [firstBandLE, if_neg hc] at hsearch
      obtain ⟨h1, h2, h3⟩ := ih (n + 1) m hsearch
      refine ⟨h1, by omega, ?_⟩
      intro k hk1 hk2
      by_cases hkn : k = n
      · subst hkn; exact not_le.mp hc
      · exact h3 k (by omega) hk2

theorem firstBandLE_found (down : Int → Int) (target : Int) (fuel : Nat) (n : Int)
    (hf : fuel ≠ 0) (h : down n ≤ target) :
    firstBandLE down target fuel n = some n := by
  cases fuel with
  | zero => exact absurd rfl hf
  | succ fuel => rw [firstBandLE, if_pos h]

theorem bandTable_lookup (f : Int → ℚ) :
    ∀ (count : Nat) (mn n : Int), mn ≤ n → n < mn + count →
      (bandTable f mn count).lookup n = some (f n) := by
  intro count
  induction count with
  | zero => intro mn n h1 h2; exfalso; omega
  | succ count ih =>
    intro mn n h1 h2
    by_cases hn : n = mn
    · subst hn; simp [bandTable, List.lookup]
    · have hbeq : (n == mn) = false := beq_eq_false_iff_ne.mpr hn
      rw [bandTable, List.lookup, hbeq]
      exact ih (mn + 1) n (by omega) (by push_cast at h2 ⊢; omega)

theorem p_oracle_up_reseed (pool : Pool) (mn mx act pol : Int)
    (bx bys : List (Int × ℚ)) (n : Int) :
    p_oracle_up
      { pool with
        min_band := mn
        max_band := mx
        active_band := act
        price_oracle_last := pol
        bands_x := bx
        bands_y := bys } n = p_oracle_up pool n := rfl

/-! ## C4: bracketing of the price path by the seeded band range -/

/-- C4: for every successful band-initialization call, the seeded band range
brackets the whole observed price path: every price of the series, scaled to
10^18 fixed point, lies at or below `p_oracle_up(min_band)` and at or above
`p_oracle_down(max_band)`. -/
theorem c4_bracketing (pool p' : Pool) (prices : PriceSeries) (total_y : Int)
    (h : init_y_bands_strategy pool prices total_y = some p') :
    ∀ q ∈ prices.priceList, toFixed q ≤ p_oracle_up p' p'.min_band ∧
      p_oracle_down p' p'.max_band ≤ toFixed q := by
  rcases hp : prices.rows with _ | ⟨⟨t0, p0⟩, rest⟩
  · unfold init_y_bands_strategy at h
    rw [hp] at h
    simp at h
  · unfold init_y_bands_strategy at h
    rw [hp] at h
    simp only [] at h
    split at h
    case isFalse => simp at h
    case isTrue hguard =>
      split at h
      case h_1 => simp at h
      case h_2 mn hmn =>
        split at h
        case h_1 => simp at h
        case h_2 act hact =>
          split at h
          case h_1 => simp at h
          case h_2 mx hmx =>
            obtain rfl : _ = p' := by injection h
            intro q hq
            have hq' : toFixed q ∈ toFixed p0 :: rest.map (fun r => toFixed r.2) := by
              simp only [PriceSeries.priceList, hp, List.map_cons] at hq
              rcases List.mem_cons.mp hq with rfl | hq2
              · exact List.mem_cons_self _ _
              · obtain ⟨r, hr, rfl⟩ := List.mem_map.mp hq2
                exact List.mem_cons_of_mem _ (List.mem_map.mpr ⟨r, hr, rfl⟩)
            obtain ⟨hub, _⟩ := findMinBand_spec _ _ _ _ hmn
            obtain ⟨hdown, _, _⟩ := firstBandLE_spec _ _ _ _ _ hmx
            constructor
            · exact le_trans (le_maxIList _ _ _ hq') hub
            · exact le_trans hdown (minIList_le _ _ _ hq')

/-- C4, witness: a successful seeding over the concrete path `pricesC3` brackets
all of its prices. -/
theorem c4_witness :
    ∃ p', init_y_bands_strategy poolB pricesC3 (3 * 10 ^ 18) = some p' ∧
      ∀ q ∈ pricesC3.priceList, toFixed q ≤ p_oracle_up p' p'.min_band ∧
        p_oracle_down p' p'.max_band ≤ toFixed q := by
  cases hEq : init_y_bands_strategy poolB pricesC3 (3 * 10 ^ 18) with
  | none =>
    have hs : (init_y_bands_strategy poolB pricesC3 (3 * 10 ^ 18)).isSome = true := by decide
    rw [hEq] at hs
    simp at hs
  | some p' =>
    exact ⟨p', rfl, c4_bracketing poolB p' pricesC3 (3 * 10 ^ 18) hEq⟩

/-! ## C3: active-band placement after initialization -/

/-- C3, counterexample: seeding over `pricesC3`, whose first price (3) is interior
to the path (its maximum 16 comes later), followed by `prepare_for_run`, leaves the
active band strictly below the price-path top: `active_band ≠ min_band`. -/
theorem c3_counterexample :
    ∃ p' p'', init_y_bands_strategy poolB pricesC3 (10 ^ 18) = some p' ∧
      Pool.prepare_for_run p' pricesC3 = some p'' ∧
      p''.active_band ≠ p''.min_band := by
  cases hEq : init_y_bands_strategy poolB pricesC3 (10 ^ 18) with
  | none =>
    have hs : (init_y_bands_strategy poolB pricesC3 (10 ^ 18)).isSome = true := by decide
    rw [hEq] at hs
    simp at hs
  | some p' =>
    have hproj : (init_y_bands_strategy poolB pricesC3 (10 ^ 18)).map
        (fun p => (p.active_band, p.min_band)) = some (2, 0) := by decide
    rw [hEq, Option.map_some'] at hproj
    have hpair : p'.active_band = 2 ∧ p'.min_band = 0 := by
      have := Option.some.inj hproj
      exact ⟨congrArg Prod.fst this, congrArg Prod.snd this⟩
    refine ⟨p', { p' with price_oracle_last := toFixed 3 }, rfl, rfl, ?_⟩
    show p'.active_band ≠ p'.min_band
    rw [hpair.1, hpair.2]
    decide

/-- C3, amended: after a successful band initialization followed by
`prepare_for_run`, `active_band = min_band` holds provided the first price of the
series is the maximum of the series (the spec's "price starts at the top of the
seeded range" convention); a series whose first price is interior places the active
band strictly inside the seeded range instead. -/
theorem c3_amended (pool p' p'' : Pool) (prices : PriceSeries) (total_y : Int)
    (t0 : Int) (p0 : ℚ) (rest : List (Int × ℚ))
    (hrows : prices.rows = (t0, p0) :: rest)
    (hmax : maxIList (toFixed p0) (rest.map (fun r => toFixed r.2)) = toFixed p0)
    (h : init_y_bands_strategy pool prices total_y = some p')
    (h2 : p'.prepare_for_run prices = some p'') :
    p''.active_band = p''.min_band := by
  unfold init_y_bands_strategy at h
  rw [hrows] at h
  simp only [] at h
  split at h
  case isFalse => simp at h
  case isTrue hguard =>
    split at h
    case h_1 => simp at h
    case h_2 mn hmn =>
      split at h
      case h_1 => simp at h
      case h_2 act hact =>
        split at h
        case h_1 => simp at h
        case h_2 mx hmx =>
          obtain ⟨_, hub2⟩ := findMinBand_spec _ _ _ _ hmn
          rw [hmax] at hub2
          have hfound : firstBandLE (p_oracle_down pool) (toFixed p0) bandFuel mn =
              some mn :=
            firstBandLE_found _ _ _ _ (by decide) (le_of_lt hub2)
          rw [hfound] at hact
          obtain rfl : mn = act := by injection hact
          obtain rfl : _ = p' := by injection h
          unfold Pool.prepare_for_run at h2
          rw [hrows] at h2
          simp only [] at h2
          obtain rfl : _ = p'' := by injection h2
          rfl

/-- C3, witness for the amended theorem: over `pricesTop` (first price 16 is the
maximum), seeding plus `prepare_for_run` gives `active_band = min_band`. -/
theorem c3_witness :
    ∃ p' p'', init_y_bands_strategy poolB pricesTop (10 ^ 18) = some p' ∧
      Pool.prepare_for_run p' pricesTop = some p'' ∧
      p''.active_band = p''.min_band := by
  cases hEq : init_y_bands_strategy poolB pricesTop (10 ^ 18) with
  | none =>
    have hs : (init_y_bands_strategy poolB pricesTop (10 ^ 18)).isSome = true := by decide
    rw [hEq] at hs
    simp at hs
  | some p' =>
    refine ⟨p', { p' with price_oracle_last := toFixed 16 }, rfl, rfl, ?_⟩
    exact c3_amended poolB p' { p' with price_oracle_last := toFixed 16 } pricesTop
      (10 ^ 18) 100 16 [(101, 3)] rfl (by decide) hEq rfl

/-! ## C5: fully converted bands between min_band and active_band -/

/-- C5: immediately after a successful band initialization, every band strictly
between `min_band` and `active_band` holds Y-balance 0 and a strictly positive
X-balance. -/
theorem c5_monotone_balance (pool p' : Pool) (prices : PriceSeries) (total_y : Int)
    (h : init_y_bands_strategy pool prices total_y = some p') :
    ∀ n : Int, p'.min_band < n → n < p'.active_band →
      bandBalance p'.bands_y n = 0 ∧ 0 < bandBalance p'.bands_x n := by
  rcases hp : prices.rows with _ | ⟨⟨t0, p0⟩, rest⟩
  · unfold init_y_bands_strategy at h
    rw [hp] at h
    simp at h
  · unfold init_y_bands_strategy at h
    rw [hp] at h
    simp only [] at h
    split at h
    case isFalse => simp at h
    case isTrue hguard =>
      split at h
      case h_1 => simp at h
      case h_2 mn hmn =>
        split at h
        case h_1 => simp at h
        case h_2 act hact =>
          split at h
          case h_1 => simp at h
          case h_2 mx hmx =>
            obtain ⟨_, hmnact, _⟩ := firstBandLE_spec _ _ _ _ _ hact
            obtain ⟨_, hactmx, _⟩ := firstBandLE_spec _ _ _ _ _ hmx
            obtain rfl : _ = p' := by injection h
            intro n h1 h2
            dsimp only at h1 h2
            have hb1 : mn ≤ n := le_of_lt h1
            have hb2 : n < mn + ((mx - mn + 1).toNat : Int) := by omega
            have hcount : 0 < ((mx - mn + 1).toNat : ℚ) := by
              have : 0 < (mx - mn + 1).toNat := by omega
              exact_mod_cast this
            have htot : 0 < ((total_y : Int) : ℚ) := by exact_mod_cast hguard.2
            constructor
            · show ((bandTable _ mn ((mx - mn + 1).toNat)).lookup n).getD 0 = 0
              rw [bandTable_lookup _ _ _ _ hb1 hb2]
              simp only [Option.getD_some]
              rw [if_neg (by omega)]
            · show (0 : ℚ) < ((bandTable _ mn ((mx - mn + 1).toNat)).lookup n).getD 0
              rw [bandTable_lookup _ _ _ _ hb1 hb2]
              simp only [Option.getD_some]
              rw [if_pos h2]
              exact div_pos htot hcount

/-- C5, witness: over `pricesC3` the seeded range is bands 0..2 with the active
band 2; band 1 is strictly between and holds Y = 0 and X > 0. -/
theorem c5_witness :
    ∃ p', init_y_bands_strategy poolB pricesC3 (3 * 10 ^ 18) = some p' ∧
      bandBalance p'.bands_y 1 = 0 ∧ 0 < bandBalance p'.bands_x 1 := by
  cases hEq : init_y_bands_strategy poolB pricesC3 (3 * 10 ^ 18) with
  | none =>
    have hs : (init_y_bands_strategy poolB pricesC3 (3 * 10 ^ 18)).isSome = true := by decide
    rw [hEq] at hs
    simp at hs
  | some p' =>
    have hproj : (init_y_bands_strategy poolB pricesC3 (3 * 10 ^ 18)).map
        (fun p => (p.active_band, p.min_band)) = some (2, 0) := by decide
    rw [hEq, Option.map_some'] at hproj
    have hpair : p'.active_band = 2 ∧ p'.min_band = 0 := by
      have := Option.some.inj hproj
      exact ⟨congrArg Prod.fst this, congrArg Prod.snd this⟩
    refine ⟨p', rfl, ?_⟩
    exact c5_monotone_balance poolB p' pricesC3 (3 * 10 ^ 18) hEq 1
      (by rw [hpair.2]; decide) (by rw [hpair.1]; decide)

end CrvUsdSim
